import Mathlib

/- Verification of the rootpy convenience layer: the systematic-splitting
computation (split_norm_shape), measurement assembly (make_measurement),
tree-buffer construction (TreeBuffer.__init__) and chain iteration
(TreeChain), shallowly embedded from the Python source in
rootpy/fit/histfactory/utils.py and rootpy/tree.py.

The external framework objects are modelled only as far as this layer
inspects them: a histogram is its name and its list of bin contents
(index 0 the underflow bin, the last index the overflow bin), the call
Integral(0, GetNbinsX() + 1) is the sum of all bins inclusive of underflow
and overflow, Scale multiplies every bin, Clone copies under a new name. -/

set_option autoImplicit false
set_option linter.unusedVariables false

/-- A one-dimensional histogram as `split_norm_shape` inspects it: a name and
the list of bin contents, with index 0 the underflow bin and the final index
the overflow bin.  Bin contents are exact rationals. -/
structure Hist where
  name : String
  bins : List ℚ
deriving Repr, DecidableEq

/-- The call `h.Integral(0, h.GetNbinsX() + 1)`: the integral inclusive of the
underflow and overflow bins, i.e. the sum of every bin content. -/
def Hist.integralAll (h : Hist) : ℚ := h.bins.sum

/-- The call `h.Scale(c)`: multiply every bin content by `c`. -/
def Hist.scale (h : Hist) (c : ℚ) : Hist :=
  { h with bins := h.bins.map (fun b => c * b) }

/-- The call `h.Clone(name=h.name + suf)`: same bins under a new name. -/
def Hist.cloneAs (h : Hist) (suf : String) : Hist :=
  { h with name := h.name ++ suf }

/-- A shape systematic: a name and the paired down/up variation histograms
(`GetHistoLow` / `GetHistoHigh`). -/
structure HistoSys where
  name : String
  low : Hist
  high : Hist
deriving Repr, DecidableEq

/-- A normalization systematic: a name and the paired down/up scale factors. -/
structure OverallSys where
  name : String
  low : ℚ
  high : ℚ
deriving Repr, DecidableEq

/-- The function `split_norm_shape(histosys, nominal_hist)` from
rootpy/fit/histfactory/utils.py: clone the up and down histograms under a
"_shape" suffix, compute the three integrals inclusive of underflow and
overflow, rescale each side by nominal_integral / side_integral, and return
the normalization component (ratios side_integral / nominal_integral) paired
with the residual shape component. -/
def split_norm_shape (histosys : HistoSys) (nominal_hist : Hist) :
    OverallSys × HistoSys :=
  let up := histosys.high.cloneAs "_shape"
  let dn := histosys.low.cloneAs "_shape"
  let n_nominal := nominal_hist.integralAll
  let n_up := up.integralAll
  let n_dn := dn.integralAll
  let up2 := up.scale (n_nominal / n_up)
  let dn2 := dn.scale (n_nominal / n_dn)
  let shape : HistoSys := ⟨histosys.name, dn2, up2⟩
  let norm : OverallSys := ⟨histosys.name, n_dn / n_nominal, n_up / n_nominal⟩
  (norm, shape)

/-- Modelled from the spec: the spec requires that the unguarded
division by zero in the rescale step of `split_norm_shape` "must be
explicitly handled or documented as a precondition (integral > 0) in any
reimplementation"; this guarded variant reports the failure explicitly,
returning `none` exactly when one of the three divisors (the up, down or
nominal integral) is zero, and the unguarded result otherwise. -/
def split_norm_shape_guarded (histosys : HistoSys) (nominal_hist : Hist) :
    Option (OverallSys × HistoSys) :=
  if histosys.high.integralAll = 0 ∨ histosys.low.integralAll = 0 ∨
      nominal_hist.integralAll = 0 then
    none
  else
    some (split_norm_shape histosys nominal_hist)

/-- Modelled from the spec: the external framework `Measurement` object, kept
only as far as `make_measurement` sets it: name, title, the output file path
stem, the recorded parameters of interest, luminosity and its relative error,
the attached channel names, and the constant parameters. -/
structure Measurement where
  name : String
  title : String
  outputPath : String
  pois : List String
  lumi : ℚ
  lumiRelError : ℚ
  channels : List String
  constParams : List String
deriving Repr, DecidableEq

/-- Modelled from the spec: `Measurement.SetPOI` records one parameter of
interest ("POI supplied as a single name records exactly one parameter of
interest"). -/
def Measurement.setPOI (m : Measurement) (p : String) : Measurement :=
  { m with pois := m.pois ++ [p] }

/-- Modelled from the spec: `Measurement.AddPOI` records one additional
parameter of interest ("one parameter of interest per list element"). -/
def Measurement.addPOI (m : Measurement) (p : String) : Measurement :=
  { m with pois := m.pois ++ [p] }

/-- The `POI` argument of `make_measurement`: Python passes either a single
name (a string, the `isinstance(POI, basestring)` branch) or a list of
names. -/
inductive POIArg
  | single (name : String)
  | names (names : List String)
deriving Repr, DecidableEq

/-- The function `make_measurement` from rootpy/fit/histfactory/utils.py,
with channels already normalized to a list: create the measurement named
"measurement_" + name, set the output path stem, record the parameters of
interest (SetPOI for a single name, AddPOI per element for a list), set the
luminosity and its relative error, attach every channel, and record the
constant parameters. -/
def make_measurement (name : String) (channels : List String)
    (lumi lumi_rel_error : ℚ) (outputPath : String)
    (POI : Option POIArg) (const_params : Option (List String)) :
    Measurement :=
  let meas : Measurement :=
    { name := "measurement_" ++ name
      title := ""
      outputPath := outputPath
      pois := []
      lumi := 1
      lumiRelError := 0
      channels := []
      constParams := [] }
  let meas :=
    match POI with
    | none => meas
    | some (POIArg.single p) => meas.setPOI p
    | some (POIArg.names ps) => ps.foldl Measurement.addPOI meas
  let meas := { meas with lumi := lumi, lumiRelError := lumi_rel_error }
  let meas := { meas with channels := meas.channels ++ channels }
  match const_params with
  | none => meas
  | some ps => { meas with constParams := meas.constParams ++ ps }

lemma foldl_addPOI_pois (ps : List String) (m : Measurement) :
    (ps.foldl Measurement.addPOI m).pois = m.pois ++ ps := by
  induction ps generalizing m with
  | nil => simp
  | cons p rest ih => simp [Measurement.addPOI, ih]

lemma sum_map_mul_left_rat (c : ℚ) (l : List ℚ) :
    (l.map (fun b => c * b)).sum = c * l.sum := by
  induction l with
  | nil => simp
  | cons x xs ih => simp [ih, mul_add]

/-- C1: for every histogram triple (nominal, up, down) with positive
integrals, the integrals taken inclusive of the underflow and overflow bins,
`split_norm_shape` returns a normalization systematic with high value
integral(up)/integral(nominal) and low value integral(down)/integral(nominal),
and a shape systematic whose up and down histograms are the originals
rescaled multiplicatively by nominal_integral/side_integral, so that each has
integral equal to the nominal integral. -/
theorem split_norm_shape_correct (histosys : HistoSys) (nominal_hist : Hist)
    (hn : 0 < nominal_hist.integralAll)
    (hu : 0 < histosys.high.integralAll)
    (hd : 0 < histosys.low.integralAll) :
    (split_norm_shape histosys nominal_hist).1.high
        = histosys.high.integralAll / nominal_hist.integralAll ∧
    (split_norm_shape histosys nominal_hist).1.low
        = histosys.low.integralAll / nominal_hist.integralAll ∧
    (split_norm_shape histosys nominal_hist).2.high.bins
        = histosys.high.bins.map
            (fun b => nominal_hist.integralAll / histosys.high.integralAll * b) ∧
    (split_norm_shape histosys nominal_hist).2.low.bins
        = histosys.low.bins.map
            (fun b => nominal_hist.integralAll / histosys.low.integralAll * b) ∧
    (split_norm_shape histosys nominal_hist).2.high.integralAll
        = nominal_hist.integralAll ∧
    (split_norm_shape histosys nominal_hist).2.low.integralAll
        = nominal_hist.integralAll := by
  refine ⟨rfl, rfl, rfl, rfl, ?_, ?_⟩
  · show ((histosys.high.cloneAs "_shape").scale
        (nominal_hist.integralAll / (histosys.high.cloneAs "_shape").integralAll)).integralAll
        = nominal_hist.integralAll
    simp only [Hist.integralAll, Hist.scale, Hist.cloneAs]
    rw [sum_map_mul_left_rat]
    have hne : histosys.high.bins.sum ≠ 0 := ne_of_gt hu
    field_simp
  · show ((histosys.low.cloneAs "_shape").scale
        (nominal_hist.integralAll / (histosys.low.cloneAs "_shape").integralAll)).integralAll
        = nominal_hist.integralAll
    simp only [Hist.integralAll, Hist.scale, Hist.cloneAs]
    rw [sum_map_mul_left_rat]
    have hne : histosys.low.bins.sum ≠ 0 := ne_of_gt hd
    field_simp

/-- Witness for C1, the example of the spec: nominal integral 100, up
integral 120, down integral 90 yield normalization high 120/100 and
low 90/100, and shape histograms that each integrate to 100. -/
theorem split_norm_shape_correct_witness :
    (split_norm_shape ⟨"JES", ⟨"dn", [40, 50]⟩, ⟨"up", [70, 50]⟩⟩
        ⟨"nom", [60, 40]⟩).1.high = 120 / 100 ∧
    (split_norm_shape ⟨"JES", ⟨"dn", [40, 50]⟩, ⟨"up", [70, 50]⟩⟩
        ⟨"nom", [60, 40]⟩).1.low = 90 / 100 ∧
    (split_norm_shape ⟨"JES", ⟨"dn", [40, 50]⟩, ⟨"up", [70, 50]⟩⟩
        ⟨"nom", [60, 40]⟩).2.high.integralAll = 100 ∧
    (split_norm_shape ⟨"JES", ⟨"dn", [40, 50]⟩, ⟨"up", [70, 50]⟩⟩
        ⟨"nom", [60, 40]⟩).2.low.integralAll = 100 := by
  have h := split_norm_shape_correct ⟨"JES", ⟨"dn", [40, 50]⟩, ⟨"up", [70, 50]⟩⟩
    ⟨"nom", [60, 40]⟩ (by norm_num [Hist.integralAll])
    (by norm_num [Hist.integralAll]) (by norm_num [Hist.integralAll])
  refine ⟨?_, ?_, ?_, ?_⟩
  · rw [h.1]; norm_num [Hist.integralAll]
  · rw [h.2.1]; norm_num [Hist.integralAll]
  · rw [h.2.2.2.2.1]; norm_num [Hist.integralAll]
  · rw [h.2.2.2.2.2]; norm_num [Hist.integralAll]

/-- C2: the source `split_norm_shape` divides by each side integral and by
the nominal integral with no guard; the guarded variant mandated by the spec
reports exactly that failure: it returns `none` whenever a side integral is
zero (the division-by-zero branch), and under the precondition that both side
integrals and the nominal integral are positive that branch is unreachable
and the guarded variant agrees with the unguarded source function. -/
theorem split_norm_shape_guard_refines (histosys : HistoSys)
    (nominal_hist : Hist) :
    ((histosys.high.integralAll = 0 ∨ histosys.low.integralAll = 0) →
      split_norm_shape_guarded histosys nominal_hist = none) ∧
    (0 < histosys.high.integralAll → 0 < histosys.low.integralAll →
      0 < nominal_hist.integralAll →
      split_norm_shape_guarded histosys nominal_hist
        = some (split_norm_shape histosys nominal_hist)) := by
  constructor
  · intro h
    rcases h with h | h <;> simp [split_norm_shape_guarded, h]
  · intro h1 h2 h3
    simp [split_norm_shape_guarded, ne_of_gt h1, ne_of_gt h2, ne_of_gt h3]

/-- Witness for C2: a zero up-side integral hits the division-by-zero branch,
and the spec example with positive integrals takes the unguarded path. -/
theorem split_norm_shape_guard_refines_witness :
    split_norm_shape_guarded ⟨"s", ⟨"dn", [1]⟩, ⟨"up", [0]⟩⟩ ⟨"nom", [1]⟩
      = none ∧
    split_norm_shape_guarded ⟨"s", ⟨"dn", [90]⟩, ⟨"up", [120]⟩⟩ ⟨"nom", [100]⟩
      = some (split_norm_shape ⟨"s", ⟨"dn", [90]⟩, ⟨"up", [120]⟩⟩
          ⟨"nom", [100]⟩) := by
  constructor
  · exact (split_norm_shape_guard_refines ⟨"s", ⟨"dn", [1]⟩, ⟨"up", [0]⟩⟩
      ⟨"nom", [1]⟩).1 (Or.inl (by norm_num [Hist.integralAll]))
  · exact (split_norm_shape_guard_refines ⟨"s", ⟨"dn", [90]⟩, ⟨"up", [120]⟩⟩
      ⟨"nom", [100]⟩).2 (by norm_num [Hist.integralAll])
      (by norm_num [Hist.integralAll]) (by norm_num [Hist.integralAll])

/-- C8: `make_measurement` with POI supplied as a single name records exactly
that one parameter of interest, and with POI supplied as a list of names
records exactly the parameters of interest of the list, one per element, so a
two-element list records two POIs. -/
theorem make_measurement_poi_counts (name : String) (channels : List String)
    (lumi lre : ℚ) (out : String) (cp : Option (List String)) (p : String)
    (ps : List String) :
    (make_measurement name channels lumi lre out
        (some (POIArg.single p)) cp).pois = [p] ∧
    (make_measurement name channels lumi lre out
        (some (POIArg.single p)) cp).pois.length = 1 ∧
    (make_measurement name channels lumi lre out
        (some (POIArg.names ps)) cp).pois = ps ∧
    (make_measurement name channels lumi lre out
        (some (POIArg.names ps)) cp).pois.length = ps.length := by
  have hsingle : (make_measurement name channels lumi lre out
      (some (POIArg.single p)) cp).pois = [p] := by
    cases cp <;> simp [make_measurement, Measurement.setPOI]
  have hnames : (make_measurement name channels lumi lre out
      (some (POIArg.names ps)) cp).pois = ps := by
    cases cp <;> simp [make_measurement, foldl_addPOI_pois]
  exact ⟨hsingle, by rw [hsingle]; rfl, hnames, by rw [hnames]⟩

/-- Python str.upper() on the ASCII type spellings involved: upper-case every
character. -/
def pyUpper (s : String) : String := String.mk (s.data.map Char.toUpper)

/-- The concrete kinds of typed storage cell a TreeBuffer can hold: signed
integer, unsigned integer, float, integer vector, float vector, and the two
nested vector kinds. -/
inductive Cell
  | int | uint | float | vint | vfloat | vvint | vvfloat
deriving Repr, DecidableEq

/-- The type-spelling resolution chain of `TreeBuffer.__init__`
(rootpy/tree.py lines 164-179): compare the upper-cased spelling against the
recognized synonym pairs in source order; `none` models the final
`TypeError` branch. -/
def resolveType (vtype : String) : Option Cell :=
  let u := pyUpper vtype
  if u ∈ ["I", "INT_T"] then some Cell.int
  else if u ∈ ["UI", "UINT_T"] then some Cell.uint
  else if u ∈ ["F", "FLOAT_T"] then some Cell.float
  else if u ∈ ["VI", "VECTOR<INT>"] then some Cell.vint
  else if u ∈ ["VF", "VECTOR<FLOAT>"] then some Cell.vfloat
  else if u ∈ ["VVI", "VECTOR<VECTOR<INT> >"] then some Cell.vvint
  else if u ∈ ["VVF", "VECTOR<VECTOR<FLOAT> >"] then some Cell.vvfloat
  else none

/-- Every upper-cased spelling the resolution chain recognizes. -/
def recognizedSpellings : List String :=
  ["I", "INT_T", "UI", "UINT_T", "F", "FLOAT_T", "VI", "VECTOR<INT>",
   "VF", "VECTOR<FLOAT>", "VVI", "VECTOR<VECTOR<INT> >", "VVF",
   "VECTOR<VECTOR<FLOAT> >"]

/-- The key/value pairs of the `TreeBuffer.demote` dict literal
(rootpy/tree.py lines 132-150) in source order; the key
"vector<vector<float> >" appears twice, first mapped to "VF" and then to
"VI". -/
def demotePairs : List (String × String) :=
  [("Float_T", "F"), ("Int_T", "I"), ("Int", "I"), ("Float", "F"),
   ("F", "F"), ("I", "I"), ("UI", "UI"),
   ("vector<float>", "F"), ("vector<int>", "I"),
   ("vector<int, allocator<int> >", "I"),
   ("vector<float, allocator<float> >", "F"),
   ("VF", "F"), ("VI", "I"),
   ("vector<vector<float> >", "VF"), ("vector<vector<float> >", "VI"),
   ("vector<vector<int>, allocator<vector<int> > >", "VI"),
   ("vector<vector<float>, allocator<vector<float> > >", "VF"),
   ("VVF", "VF"), ("VVI", "VI")]

/-- One assignment of a Python dict literal: a later assignment to an already
present key overwrites the earlier value in place, otherwise the pair is
appended. -/
def dictInsert (d : List (String × String)) (kv : String × String) :
    List (String × String) :=
  if d.any (fun q => q.1 = kv.1) then
    d.map (fun q => if q.1 = kv.1 then kv else q)
  else d ++ [kv]

/-- The `TreeBuffer.demote` dictionary: the dict literal built from
`demotePairs` left to right. -/
def demoteDict : List (String × String) := demotePairs.foldl dictInsert []

/-- The subscript `TreeBuffer.demote[vtype]`; `none` models the Python
KeyError on an absent key. -/
def demoteLookup (k : String) : Option String :=
  (demoteDict.find? (fun q => q.1 = k)).map Prod.snd

/-- The distinct exception kinds `TreeBuffer.__init__` raises: the KeyError
of a failed demotion, the ValueError for a duplicate variable name, the
TypeError for an unsupported type spelling, and the ValueError for an illegal
(reserved or underscore-led) variable name. -/
inductive BufErr
  | keyError | duplicateName | typeError | illegalName
deriving Repr, DecidableEq

/-- The reserved attribute and method names of a TreeBuffer, the model of
`dir(self)` in the constructor: the methods TreeBuffer defines together with
the inherited Python 2 dict interface, including has_key, the iter* and the
view* methods of a Python 2 dict (the double-underscore entries of `dir` all
start with "_" and are covered by the underscore test). -/
def methods : List String :=
  ["demote", "reset", "clear", "copy", "fromkeys", "get", "has_key", "items",
   "iteritems", "iterkeys", "itervalues", "keys", "pop", "popitem",
   "setdefault", "update", "values", "viewitems", "viewkeys", "viewvalues"]

/-- Python `name.startswith("_")`: whether the first character of the name is
an underscore. -/
def startsUnderscore (s : String) : Bool :=
  match s.data with
  | [] => false
  | c :: _ => c = '_'

/-- One iteration of the constructor loop of `TreeBuffer.__init__`
(rootpy/tree.py lines 157-183) on the pair (name, vtype0): demote the
spelling when flatten is requested, reject a duplicate name, resolve the
spelling to a cell kind, reject a reserved or underscore-led name, and
otherwise extend the processed-name list and the data mapping. -/
def bufStep (flatten : Bool) (processed : List String)
    (data : List (String × Cell)) (name vtype0 : String) :
    Except BufErr (List String × List (String × Cell)) :=
  match (if flatten then demoteLookup vtype0 else some vtype0) with
  | none => Except.error BufErr.keyError
  | some vtype =>
    if name ∈ processed then Except.error BufErr.duplicateName
    else
      match resolveType vtype with
      | none => Except.error BufErr.typeError
      | some cell =>
        if name ∈ methods ∨ startsUnderscore name then
          Except.error BufErr.illegalName
        else Except.ok (processed ++ [name], data ++ [(name, cell)])

/-- The constructor loop of `TreeBuffer.__init__` over the declared variable
list, threading the processed-name list and the data mapping; the first
raised error aborts the loop. -/
def bufGo (flatten : Bool) (processed : List String)
    (data : List (String × Cell)) :
    List (String × String) → Except BufErr (List String × List (String × Cell))
  | [] => Except.ok (processed, data)
  | (name, vt) :: rest =>
    match bufStep flatten processed data name vt with
    | Except.error e => Except.error e
    | Except.ok (p, d) => bufGo flatten p d rest

/-- `TreeBuffer.__init__(variables, flatten)`: run the constructor loop from
the empty state; on success the buffer holds the final data mapping
(`dict.__init__(self, data)`), on an exception nothing is exposed. -/
def buildTreeBuffer (flatten : Bool) (vars : List (String × String)) :
    Except BufErr (List (String × Cell)) :=
  (bufGo flatten [] [] vars).map Prod.snd

lemma bufStep_ok (flatten : Bool) (p : List String) (d : List (String × Cell))
    (name vt : String) (p1 : List String) (d1 : List (String × Cell))
    (h : bufStep flatten p d name vt = Except.ok (p1, d1)) :
    p1 = p ++ [name] ∧ ∃ c, d1 = d ++ [(name, c)] := by
  unfold bufStep at h
  split at h
  · exact absurd h (by simp)
  · split at h
    · exact absurd h (by simp)
    · split at h
      · exact absurd h (by simp)
      · split at h
        · exact absurd h (by simp)
        · simp only [Except.ok.injEq, Prod.mk.injEq] at h
          exact ⟨h.1.symm, _, h.2.symm⟩

lemma bufGo_append (flatten : Bool) (p : List String) (d : List (String × Cell))
    (xs ys : List (String × String)) :
    bufGo flatten p d (xs ++ ys) =
      match bufGo flatten p d xs with
      | Except.error e => Except.error e
      | Except.ok pd => bufGo flatten pd.1 pd.2 ys := by
  induction xs generalizing p d with
  | nil => simp [bufGo]
  | cons nv rest ih =>
    obtain ⟨name, vt⟩ := nv
    simp only [List.cons_append, bufGo]
    cases h : bufStep flatten p d name vt with
    | error e => simp
    | ok pd => exact ih pd.1 pd.2

lemma bufGo_ok_processed (xs : List (String × String)) (flatten : Bool)
    (p : List String) (d : List (String × Cell)) (p1 : List String)
    (d1 : List (String × Cell))
    (h : bufGo flatten p d xs = Except.ok (p1, d1)) :
    p1 = p ++ xs.map Prod.fst := by
  induction xs generalizing p d with
  | nil =>
    simp only [bufGo, Except.ok.injEq, Prod.mk.injEq] at h
    simp [h.1]
  | cons nv rest ih =>
    obtain ⟨name, vt⟩ := nv
    simp only [bufGo] at h
    cases hs : bufStep flatten p d name vt with
    | error e => rw [hs] at h; exact absurd h (by simp)
    | ok pd =>
      rw [hs] at h
      obtain ⟨hp, c, hd⟩ := bufStep_ok flatten p d name vt pd.1 pd.2 (by rw [hs])
      have := ih pd.1 pd.2 h
      rw [this, hp]
      simp

lemma buildTreeBuffer_single (nm s : String)
    (hm : nm ∉ methods) (hu : startsUnderscore nm = false) :
    buildTreeBuffer false [(nm, s)] =
      match resolveType s with
      | some c => Except.ok [(nm, c)]
      | none => Except.error BufErr.typeError := by
  cases hres : resolveType s with
  | none => simp [buildTreeBuffer, bufGo, bufStep, hres, Except.map]
  | some c => simp [buildTreeBuffer, bufGo, bufStep, hres, hm, hu, Except.map]

/-- C3: in TreeBuffer construction every recognized type spelling, compared
case-insensitively and accepting the synonymous spellings per kind ("I" and
"Int_T" a signed-integer cell, "UI" and "UInt_T" an unsigned-integer cell,
"F" and "Float_T" a float cell, "VI" and "vector<int>" an integer-vector
cell, "VF" and "vector<float>" a float-vector cell, "VVI" and
"vector<vector<int> >" and "VVF" and "vector<vector<float> >" nested-vector
cells), yields a cell of the expected concrete kind, and any spelling whose
upper-cased form is outside the recognized set makes construction fail with
the type error. -/
theorem treeBuffer_type_resolution :
    (∀ s, pyUpper s ∈ (["I", "INT_T"] : List String) →
      buildTreeBuffer false [("x", s)] = Except.ok [("x", Cell.int)]) ∧
    (∀ s, pyUpper s ∈ (["UI", "UINT_T"] : List String) →
      buildTreeBuffer false [("x", s)] = Except.ok [("x", Cell.uint)]) ∧
    (∀ s, pyUpper s ∈ (["F", "FLOAT_T"] : List String) →
      buildTreeBuffer false [("x", s)] = Except.ok [("x", Cell.float)]) ∧
    (∀ s, pyUpper s ∈ (["VI", "VECTOR<INT>"] : List String) →
      buildTreeBuffer false [("x", s)] = Except.ok [("x", Cell.vint)]) ∧
    (∀ s, pyUpper s ∈ (["VF", "VECTOR<FLOAT>"] : List String) →
      buildTreeBuffer false [("x", s)] = Except.ok [("x", Cell.vfloat)]) ∧
    (∀ s, pyUpper s ∈ (["VVI", "VECTOR<VECTOR<INT> >"] : List String) →
      buildTreeBuffer false [("x", s)] = Except.ok [("x", Cell.vvint)]) ∧
    (∀ s, pyUpper s ∈ (["VVF", "VECTOR<VECTOR<FLOAT> >"] : List String) →
      buildTreeBuffer false [("x", s)] = Except.ok [("x", Cell.vvfloat)]) ∧
    (∀ s, pyUpper s ∉ recognizedSpellings →
      buildTreeBuffer false [("x", s)] = Except.error BufErr.typeError) := by
  have hx : ("x" : String) ∉ methods := by decide
  have hu : startsUnderscore "x" = false := rfl
  refine ⟨?_, ?_, ?_, ?_, ?_, ?_, ?_, ?_⟩
  · intro s hs
    rw [buildTreeBuffer_single "x" s hx hu]
    have hres : resolveType s = some Cell.int := by
      simp only [List.mem_cons, List.not_mem_nil, or_false] at hs
      rcases hs with h | h <;> simp [resolveType, h]
    rw [hres]
  · intro s hs
    rw [buildTreeBuffer_single "x" s hx hu]
    have hres : resolveType s = some Cell.uint := by
      simp only [List.mem_cons, List.not_mem_nil, or_false] at hs
      rcases hs with h | h <;> simp [resolveType, h]
    rw [hres]
  · intro s hs
    rw [buildTreeBuffer_single "x" s hx hu]
    have hres : resolveType s = some Cell.float := by
      simp only [List.mem_cons, List.not_mem_nil, or_false] at hs
      rcases hs with h | h <;> simp [resolveType, h]
    rw [hres]
  · intro s hs
    rw [buildTreeBuffer_single "x" s hx hu]
    have hres : resolveType s = some Cell.vint := by
      simp only [List.mem_cons, List.not_mem_nil, or_false] at hs
      rcases hs with h | h <;> simp [resolveType, h]
    rw [hres]
  · intro s hs
    rw [buildTreeBuffer_single "x" s hx hu]
    have hres : resolveType s = some Cell.vfloat := by
      simp only [List.mem_cons, List.not_mem_nil, or_false] at hs
      rcases hs with h | h <;> simp [resolveType, h]
    rw [hres]
  · intro s hs
    rw [buildTreeBuffer_single "x" s hx hu]
    have hres : resolveType s = some Cell.vvint := by
      simp only [List.mem_cons, List.not_mem_nil, or_false] at hs
      rcases hs with h | h <;> simp [resolveType, h]
    rw [hres]
  · intro s hs
    rw [buildTreeBuffer_single "x" s hx hu]
    have hres : resolveType s = some Cell.vvfloat := by
      simp only [List.mem_cons, List.not_mem_nil, or_false] at hs
      rcases hs with h | h <;> simp [resolveType, h]
    rw [hres]
  · intro s hs
    rw [buildTreeBuffer_single "x" s hx hu]
    have hres : resolveType s = none := by
      simp only [recognizedSpellings, List.mem_cons, List.not_mem_nil,
        or_false, not_or] at hs
      obtain ⟨h1, h2, h3, h4, h5, h6, h7, h8, h9, h10, h11, h12, h13, h14⟩ := hs
      simp [resolveType, h1, h2, h3, h4, h5, h6, h7, h8, h9, h10, h11, h12,
        h13, h14]
    rw [hres]

/-- Witness for C3: the lower-case spelling "int_t" yields the
signed-integer cell, "vector<float>" the float-vector cell, and the
unrecognized spelling "garbage" fails with the type error. -/
theorem treeBuffer_type_resolution_witness :
    buildTreeBuffer false [("x", "int_t")] = Except.ok [("x", Cell.int)] ∧
    buildTreeBuffer false [("x", "vector<float>")]
        = Except.ok [("x", Cell.vfloat)] ∧
    buildTreeBuffer false [("x", "garbage")]
        = Except.error BufErr.typeError := by
  have h := treeBuffer_type_resolution
  exact ⟨h.1 "int_t" (by decide),
    h.2.2.2.2.1 "vector<float>" (by decide),
    h.2.2.2.2.2.2.2 "garbage" (by decide)⟩

/-- C4: TreeBuffer construction (without flattening, the default) on a
variable list whose successfully processed prefix already contains a name
fails with the duplicate-name value error at the second occurrence of that
name, and the failure occurs before any cell is created for the second
occurrence: the error is the same whatever the second declared type spelling
is, even one that could not be resolved to any cell, and whatever pairs
follow. -/
theorem treeBuffer_duplicate_name_rejected (vs : List (String × String))
    (name : String) (r : List (String × Cell))
    (h : buildTreeBuffer false vs = Except.ok r)
    (hname : name ∈ vs.map Prod.fst) :
    ∀ t2 rest, buildTreeBuffer false (vs ++ (name, t2) :: rest)
        = Except.error BufErr.duplicateName := by
  intro t2 rest
  obtain ⟨p1, d1, hp⟩ : ∃ p1 d1,
      bufGo false [] [] vs = Except.ok (p1, d1) := by
    unfold buildTreeBuffer at h
    cases hg : bufGo false [] [] vs with
    | error e => rw [hg] at h; exact absurd h (by simp [Except.map])
    | ok pd => obtain ⟨q1, q2⟩ := pd; exact ⟨q1, q2, rfl⟩
  have hmem : name ∈ p1 := by
    rw [bufGo_ok_processed _ _ _ _ _ _ hp]
    simpa using hname
  rw [buildTreeBuffer, bufGo_append, hp]
  simp [bufGo, bufStep, hmem, Except.map]

/-- Witness for C4: declaring "x" twice fails with the duplicate-name error
even though the second spelling "NOPE" is unsupported, so the check fires
before a cell is created for the second occurrence. -/
theorem treeBuffer_duplicate_name_rejected_witness :
    buildTreeBuffer false [("x", "I"), ("x", "NOPE")]
        = Except.error BufErr.duplicateName := by
  have h := treeBuffer_duplicate_name_rejected [("x", "I")] "x"
    [("x", Cell.int)] (by rfl) (by simp)
  simpa using h "NOPE" []

/-- C5: TreeBuffer construction rejects a variable name that collides with a
reserved attribute or method name or starts with the reserved underscore
lead: once the loop reaches such a pair (prefix processed, spelling demoted
and resolved, the name not a duplicate), it raises the illegal-name error, an
error kind distinct from the type error and the duplicate-name error, and no
later pair is processed: the result is the same error whatever follows, and
no cell mapping is exposed. -/
theorem treeBuffer_illegal_name_rejected (flatten : Bool)
    (vs : List (String × String)) (name t t2 : String) (c : Cell)
    (p1 : List String) (d1 : List (String × Cell))
    (hpre : bufGo flatten [] [] vs = Except.ok (p1, d1))
    (hdem : (if flatten then demoteLookup t else some t) = some t2)
    (hres : resolveType t2 = some c)
    (hdup : name ∉ p1)
    (hill : name ∈ methods ∨ startsUnderscore name = true) :
    (∀ rest, buildTreeBuffer flatten (vs ++ (name, t) :: rest)
        = Except.error BufErr.illegalName) ∧
    BufErr.illegalName ≠ BufErr.typeError ∧
    BufErr.illegalName ≠ BufErr.duplicateName := by
  refine ⟨?_, by simp, by simp⟩
  intro rest
  rw [buildTreeBuffer, bufGo_append, hpre]
  simp only [bufGo, bufStep, hdem, hres, hdup, if_false, if_neg hdup]
  rw [if_pos hill]
  simp [Except.map]

/-- Witness for C5: the reserved dict-method names "keys" and the Python 2
"has_key" are both rejected with the illegal-name error. -/
theorem treeBuffer_illegal_name_rejected_witness :
    buildTreeBuffer false [("keys", "I")]
        = Except.error BufErr.illegalName ∧
    buildTreeBuffer false [("has_key", "F")]
        = Except.error BufErr.illegalName := by
  have h := treeBuffer_illegal_name_rejected false [] "keys" "I" "I"
    Cell.int [] [] rfl rfl (by decide) (by simp) (Or.inl (by decide))
  have h2 := treeBuffer_illegal_name_rejected false [] "has_key" "F" "F"
    Cell.float [] [] rfl rfl (by decide) (by simp) (Or.inl (by decide))
  exact ⟨by simpa using h.1 [], by simpa using h2.1 []⟩

/-- C6: in the `TreeBuffer.demote` dict literal the key
"vector<vector<float> >" appears twice, first mapped to "VF" and then to
"VI", and the second occurrence overrides the first, so constructing a
TreeBuffer with flatten enabled and declared type "vector<vector<float> >"
demotes it to "VI" and produces an integer-vector cell, not the float-vector
cell (nor the nested-vector cell the same spelling yields without
flattening). -/
theorem demote_duplicate_key_overrides :
    (demotePairs.filter (fun q => q.1 = "vector<vector<float> >")).map
        Prod.snd = ["VF", "VI"] ∧
    demoteLookup "vector<vector<float> >" = some "VI" ∧
    buildTreeBuffer true [("x", "vector<vector<float> >")]
        = Except.ok [("x", Cell.vint)] ∧
    Cell.vint ≠ Cell.vfloat ∧
    resolveType "vector<vector<float> >" = some Cell.vvfloat := by
  exact ⟨by decide, by decide, by rfl, by decide, by decide⟩

/-- The data of one tree as `TreeChain` inspects it: the branch (column)
names, the number of entries and the tree weight. -/
structure TreeData where
  branches : List String
  entries : Nat
  weight : Int
deriving Repr, DecidableEq

/-- The call `file.Get(treeName)` on the model file contents, an association
list from tree name to tree data; `none` models a missing tree. -/
def getTree (contents : List (String × TreeData)) (tn : String) :
    Option TreeData :=
  (contents.find? (fun q => q.1 = tn)).map Prod.snd

/-- The per-file validation sequence of `TreeChain.__initialize`
(rootpy/tree.py lines 94-114) on one candidate file, over a model file
system `fs` mapping a file name to its contents (`none` models a file that
cannot be opened): open the file, fetch the named tree, reject a tree with no
branches, and require every buffer branch to be present; each `none` result
is one of the warn-and-skip defects. -/
def tryFile (fs : String → Option (List (String × TreeData))) (tn : String)
    (buf : List String) (fileName : String) : Option TreeData :=
  match fs fileName with
  | none => none
  | some contents =>
    match getTree contents tn with
    | none => none
    | some t =>
      if t.branches.length = 0 then none
      else if buf.all (fun b => t.branches.contains b) then some t
      else none

/-- The method `TreeChain.__initialize` (rootpy/tree.py lines 85-117): pop
file names from the END of the stored file list (`self.files.pop()`) until a
candidate passes validation or the list is exhausted; the result is the tree
found, if any, together with the remaining file list. -/
def nextTree (fs : String → Option (List (String × TreeData))) (tn : String)
    (buf : List String) (files : List String) :
    Option TreeData × List String :=
  match h : files.getLast? with
  | none => (none, files)
  | some fileName =>
    match tryFile fs tn buf fileName with
    | some t => (some t, files.dropLast)
    | none => nextTree fs tn buf files.dropLast
termination_by files.length
decreasing_by
  have hne : files ≠ [] := by
    intro he
    rw [he] at h
    simp at h
  rw [List.length_dropLast]
  exact Nat.sub_lt (List.length_pos.mpr hne) Nat.one_pos

lemma nextTree_nil (fs : String → Option (List (String × TreeData)))
    (tn : String) (buf : List String) :
    nextTree fs tn buf [] = (none, []) := by
  rw [nextTree]
  rfl

lemma nextTree_concat (fs : String → Option (List (String × TreeData)))
    (tn : String) (buf : List String) (l : List String) (f : String) :
    nextTree fs tn buf (l ++ [f]) =
      match tryFile fs tn buf f with
      | some t => (some t, l)
      | none => nextTree fs tn buf l := by
  rw [nextTree]
  split
  · rename_i h
    rw [List.getLast?_concat] at h
    exact absurd h (by simp)
  · rename_i fileName h
    rw [List.getLast?_concat] at h
    obtain rfl : f = fileName := by injection h
    rw [List.dropLast_concat]

lemma nextTree_some_lt (fs : String → Option (List (String × TreeData)))
    (tn : String) (buf : List String) :
    ∀ (l : List String) (t : TreeData) (rest : List String),
      nextTree fs tn buf l = (some t, rest) → rest.length < l.length := by
  intro l
  induction l using List.reverseRecOn with
  | nil =>
    intro t rest h
    rw [nextTree_nil] at h
    exact absurd h (by simp)
  | append_singleton l f ih =>
    intro t rest h
    rw [nextTree_concat] at h
    cases htf : tryFile fs tn buf f with
    | some t2 =>
      rw [htf] at h
      obtain ⟨h1, h2⟩ := Prod.mk.injEq .. ▸ h
      simp only [Prod.mk.injEq] at h
      rw [← h.2]
      simp
    | none =>
      rw [htf] at h
      exact (ih t rest h).trans (by simp)

/-- The entry loop of `TreeChain.__iter__` (rootpy/tree.py lines 119-123):
repeatedly call `__initialize` and collect the tree served for each
successful call, until the file list is exhausted; returns the trees served
in order together with the final remaining file list. -/
def runChain (fs : String → Option (List (String × TreeData))) (tn : String)
    (buf : List String) (files : List String) :
    List TreeData × List String :=
  match h : nextTree fs tn buf files with
  | (none, rest) => ([], rest)
  | (some t, rest) =>
    ((runChain fs tn buf rest).1.cons t, (runChain fs tn buf rest).2)
termination_by files.length
decreasing_by
  exact nextTree_some_lt fs tn buf files t rest h

lemma runChain_unfold (fs : String → Option (List (String × TreeData)))
    (tn : String) (buf : List String) (files : List String) :
    runChain fs tn buf files =
      match nextTree fs tn buf files with
      | (none, rest) => ([], rest)
      | (some t, rest) =>
        ((runChain fs tn buf rest).1.cons t, (runChain fs tn buf rest).2) := by
  rw [runChain]
  split
  · rename_i rest h
    rw [h]
  · rename_i t rest h
    rw [h]

lemma runChain_spec (fs : String → Option (List (String × TreeData)))
    (tn : String) (buf : List String) (l : List String) :
    runChain fs tn buf l = (l.reverse.filterMap (tryFile fs tn buf), []) := by
  induction l using List.reverseRecOn with
  | nil =>
    rw [runChain_unfold, nextTree_nil]
    simp
  | append_singleton l f ih =>
    rw [runChain_unfold, nextTree_concat]
    cases htf : tryFile fs tn buf f with
    | some t =>
      simp only [htf]
      rw [ih]
      simp [htf]
    | none =>
      simp only [htf]
      rw [← runChain_unfold, ih]
      simp [htf]

lemma tryFile_none_iff (fs : String → Option (List (String × TreeData)))
    (tn : String) (buf : List String) (f : String) :
    tryFile fs tn buf f = none ↔
      fs f = none ∨
      (∃ c, fs f = some c ∧ getTree c tn = none) ∨
      (∃ c t, fs f = some c ∧ getTree c tn = some t ∧
        (t.branches = [] ∨
         ∃ b, b ∈ buf ∧ t.branches.contains b = false)) := by
  unfold tryFile
  split
  · rename_i hf
    simp [hf]
  · rename_i contents hf
    split
    · rename_i hg
      refine iff_of_true rfl (Or.inr (Or.inl ⟨contents, hf, hg⟩))
    · rename_i t hg
      by_cases hb : t.branches.length = 0
      · rw [if_pos hb]
        exact iff_of_true rfl
          (Or.inr (Or.inr ⟨contents, t, hf, hg,
            Or.inl (List.length_eq_zero.mp hb)⟩))
      · rw [if_neg hb]
        have hbne : ¬ t.branches = [] := fun he => hb (by simp [he])
        by_cases hall : buf.all (fun b => t.branches.contains b) = true
        · rw [if_pos hall]
          have hall2 := List.all_eq_true.mp hall
          refine iff_of_false (by simp) ?_
          intro hdef
          rcases hdef with h1 | ⟨c2, hc2, hg2⟩ | ⟨c2, t2, hc2, hg2, hrest⟩
          · rw [hf] at h1
            cases h1
          · rw [hf] at hc2
            injection hc2 with he
            subst he
            rw [hg] at hg2
            cases hg2
          · rw [hf] at hc2
            injection hc2 with he
            subst he
            rw [hg] at hg2
            injection hg2 with he2
            subst he2
            rcases hrest with hbs | ⟨b, hbmem, hbf⟩
            · exact hbne hbs
            · rw [hall2 b hbmem] at hbf
              cases hbf
        · rw [if_neg hall]
          simp only [List.all_eq_true, not_forall] at hall
          obtain ⟨b, hbmem, hbf⟩ := hall
          refine iff_of_true rfl
            (Or.inr (Or.inr ⟨contents, t, hf, hg,
              Or.inr ⟨b, hbmem, by simpa using hbf⟩⟩))

/-- C7: during TreeChain iteration every per-file defect (an unopenable file,
a missing tree, a tree with no branches, or a requested branch missing from
the tree) makes the validation of that file fail, and a file failing
validation is simply skipped: the trees served over the whole iteration are
exactly those of the files passing validation, in pop order, so no defect is
fatal and exhausting the file list just ends the iteration with the files
served so far. -/
theorem treeChain_skip_policy (fs : String → Option (List (String × TreeData)))
    (tn : String) (buf : List String) (l : List String) :
    (runChain fs tn buf l).1 = l.reverse.filterMap (tryFile fs tn buf) ∧
    (∀ f, tryFile fs tn buf f = none ↔
      fs f = none ∨
      (∃ c, fs f = some c ∧ getTree c tn = none) ∨
      (∃ c t, fs f = some c ∧ getTree c tn = some t ∧
        (t.branches = [] ∨
         ∃ b, b ∈ buf ∧ t.branches.contains b = false))) := by
  exact ⟨by rw [runChain_spec], fun f => tryFile_none_iff fs tn buf f⟩

/-- C10: a TreeChain iterates by popping file names from the end of the
stored list, so the files are processed in reverse of the supplied order
(the served trees are the validated files of the reversed list), and the
list is destructively consumed: after one complete iteration the stored list
is empty, and iterating the same chain again serves no tree at all. -/
theorem treeChain_reverse_and_consumed
    (fs : String → Option (List (String × TreeData))) (tn : String)
    (buf : List String) (l : List String) :
    (runChain fs tn buf l).1 = l.reverse.filterMap (tryFile fs tn buf) ∧
    (runChain fs tn buf l).2 = [] ∧
    runChain fs tn buf ((runChain fs tn buf l).2) = ([], []) := by
  have h := runChain_spec fs tn buf l
  have h0 := runChain_spec fs tn buf []
  refine ⟨by rw [h], by rw [h], ?_⟩
  rw [h]
  simpa using h0

/-- A file resource event of the chain: a backing file is opened
(`File(fileName)`) or closed (`self.file.Close()`). -/
inductive FileEv
  | opened (f : String)
  | closed (f : String)
deriving Repr, DecidableEq

/-- The close events emitted at the top of `TreeChain.__initialize`
(rootpy/tree.py lines 87-91): the currently held file, if any, is closed
before anything else happens. -/
def closeEvs : Option String → List FileEv
  | none => []
  | some f => [FileEv.closed f]

/-- The sequence of file open and close events produced by repeatedly
calling `TreeChain.__initialize` until the stored file list is exhausted,
starting with `cur` as the currently open file (`self.file`, `none` at
construction).  Each call first closes the current file, then pops the next
candidate off the END of the list and opens it; whether or not the candidate
passes validation, the next event-relevant step is again `__initialize`
(recursively on a defect, from the `__iter__` loop after serving the tree
entries on success), now holding the popped file, so the events do not
depend on validation; the final call finds the list empty, closes the last
held file and stops. -/
def chainTrace (cur : Option String) (files : List String) : List FileEv :=
  match h : files.getLast? with
  | none => closeEvs cur
  | some fileName =>
    closeEvs cur ++
      FileEv.opened fileName :: chainTrace (some fileName) files.dropLast
termination_by files.length
decreasing_by
  have hne : files ≠ [] := by
    intro he
    rw [he] at h
    simp at h
  rw [List.length_dropLast]
  exact Nat.sub_lt (List.length_pos.mpr hne) Nat.one_pos

/-- The well-nested event pattern: each file of the list in turn is opened
and then closed before the next one is touched. -/
def openClosePairs : List String → List FileEv
  | [] => []
  | f :: rest => FileEv.opened f :: FileEv.closed f :: openClosePairs rest

/-- The net number of files held open after a list of events. -/
def openCount : List FileEv → Int
  | [] => 0
  | FileEv.opened _ :: rest => openCount rest + 1
  | FileEv.closed _ :: rest => openCount rest - 1

lemma chainTrace_nil (cur : Option String) :
    chainTrace cur [] = closeEvs cur := by
  rw [chainTrace]
  rfl

lemma chainTrace_concat (cur : Option String) (l : List String) (f : String) :
    chainTrace cur (l ++ [f]) =
      closeEvs cur ++ FileEv.opened f :: chainTrace (some f) l := by
  rw [chainTrace]
  split
  · rename_i h
    rw [List.getLast?_concat] at h
    exact absurd h (by simp)
  · rename_i fileName h
    rw [List.getLast?_concat] at h
    obtain rfl : f = fileName := by injection h
    rw [List.dropLast_concat]

lemma chainTrace_spec (l : List String) :
    ∀ cur : Option String,
      chainTrace cur l = closeEvs cur ++ openClosePairs l.reverse := by
  induction l using List.reverseRecOn with
  | nil =>
    intro cur
    rw [chainTrace_nil]
    simp [openClosePairs]
  | append_singleton l f ih =>
    intro cur
    rw [chainTrace_concat, ih (some f)]
    simp [closeEvs, openClosePairs]

lemma openClosePairs_prefix (l : List String) :
    ∀ pre post : List FileEv, pre ++ post = openClosePairs l →
      openCount pre = 0 ∨ openCount pre = 1 := by
  induction l with
  | nil =>
    intro pre post h
    simp only [openClosePairs, List.append_eq_nil] at h
    left
    rw [h.1]
    rfl
  | cons f rest ih =>
    intro pre post h
    match pre with
    | [] => left; rfl
    | [e] =>
      simp only [openClosePairs, List.cons_append, List.nil_append,
        List.cons.injEq] at h
      right
      rw [h.1]
      rfl
    | e1 :: e2 :: pre2 =>
      simp only [openClosePairs, List.cons_append, List.cons.injEq] at h
      obtain ⟨h1, h2, h3⟩ := h
      rw [h1, h2]
      have : openCount (FileEv.opened f :: FileEv.closed f :: pre2)
          = openCount pre2 := by
        simp only [openCount]
        omega
      rw [this]
      exact ih pre2 post h3

lemma openClosePairs_total (l : List String) :
    openCount (openClosePairs l) = 0 := by
  induction l with
  | nil => rfl
  | cons f rest ih =>
    simp only [openClosePairs, openCount]
    omega

/-- C9: over a full TreeChain iteration the file events are exactly one
open-then-close pair per popped file, in pop order; consequently at every
point of the trace at most one backing file is held open (every proper
prefix holds zero or one file open), on every transition the previous file
is closed before the next is opened (that is what the paired pattern says),
and at exhaustion the last file has been released (the net count of the full
trace is zero). -/
theorem treeChain_at_most_one_open_file (l : List String) :
    chainTrace none l = openClosePairs l.reverse ∧
    (∀ pre post : List FileEv, pre ++ post = chainTrace none l →
      openCount pre = 0 ∨ openCount pre = 1) ∧
    openCount (chainTrace none l) = 0 := by
  have h := chainTrace_spec l none
  simp only [closeEvs, List.nil_append] at h
  refine ⟨h, ?_, ?_⟩
  · intro pre post hp
    rw [h] at hp
    exact openClosePairs_prefix l.reverse pre post hp
  · rw [h]
    exact openClosePairs_total l.reverse

/-- Witness for C9: for the two-file chain ["a", "b"] the trace is open "b",
close "b", open "a", close "a", and after the prefix that has opened "b" the
chain holds zero or one file open. -/
theorem treeChain_at_most_one_open_file_witness :
    chainTrace none ["a", "b"]
      = [FileEv.opened "b", FileEv.closed "b", FileEv.opened "a",
         FileEv.closed "a"] ∧
    (openCount [FileEv.opened "b"] = 0 ∨
     openCount [FileEv.opened "b"] = 1) := by
  have h := treeChain_at_most_one_open_file ["a", "b"]
  have h1 : chainTrace none ["a", "b"]
      = [FileEv.opened "b", FileEv.closed "b", FileEv.opened "a",
         FileEv.closed "a"] := by
    rw [h.1]
    rfl
  refine ⟨h1, h.2.1 [FileEv.opened "b"]
    [FileEv.closed "b", FileEv.opened "a", FileEv.closed "a"] ?_⟩
  rw [h1]
  rfl
